import Mathlib

/-!
Shallow embedding of the disposable-email-checker risk engine
(app/modules/v2/email_checker.py, the later generation of the engine),
together with theorems settling the specification's claims about it.

Strings are modelled as Lean `String`s, with the character-level work done
on `String.data : List Char`.  Machine time is modelled as `Int` seconds,
risk scores as `Int`.  Network effects (the DNS probe of `_check_mx_record`
and the remote fetches of `_fetch_external_lists`) are modelled as oracle
arguments describing the outcome of the I/O.
-/

/-! ## Character and list helpers -/

/-- Character codes of the specials accepted in the local part of
`email_pattern`: `. ! # $ % & ' * + / = ? ^ _ \x60 \x7b | \x7d ~ -`. -/
def localSpecialCodes : List Nat :=
  [46, 33, 35, 36, 37, 38, 39, 42, 43, 47, 61, 63, 94, 95, 96, 123, 124, 125, 126, 45]

/-- Membership in the local-part character class of `email_pattern`. -/
def isLocalChar (c : Char) : Bool :=
  c.isAlphanum || localSpecialCodes.contains c.toNat

/-- Python `str.strip` whitespace set: space, tab, LF, CR, VT, FF. -/
def pyIsSpaceChar (c : Char) : Bool :=
  [32, 9, 10, 13, 11, 12].contains c.toNat

/-- Python `str.strip`: drop leading and trailing whitespace. -/
def pyStrip (l : List Char) : List Char :=
  ((l.dropWhile pyIsSpaceChar).reverse.dropWhile pyIsSpaceChar).reverse

/-- Python `str.split(sep)` for a single-character separator:
splitting an empty string yields `[[]]`, and each separator occurrence
starts a new chunk. -/
def splitChar (sep : Char) : List Char → List (List Char)
  | [] => [[]]
  | c :: cs =>
    if c = sep then [] :: splitChar sep cs
    else
      match splitChar sep cs with
      | [] => [[c]]
      | h :: t => (c :: h) :: t

/-- Does `l` start with the chunk `pat`? -/
def leadMatches : List Char → List Char → Bool
  | [], _ => true
  | _ :: _, [] => false
  | p :: ps, c :: cs => p == c && leadMatches ps cs

/-- Python `pat in l`: does `pat` occur contiguously inside `l`? -/
def containsSeq (pat : List Char) : List Char → Bool
  | [] => leadMatches pat []
  | c :: cs => leadMatches pat (c :: cs) || containsSeq pat cs

/-- Python `str.endswith`: does `l` end with the chunk `pat`? -/
def tailMatches (pat l : List Char) : Bool :=
  leadMatches pat.reverse l.reverse

/-- Is there a run of at least `k` consecutive alphanumeric characters,
given that `cur` alphanumerics immediately precede the remaining list?
Models `re.findall(r"[a-zA-Z0-9]\x7b15,\x7d", s)` being non-empty. -/
def hasRunAux (k : Nat) : List Char → Nat → Bool
  | [], cur => decide (k ≤ cur)
  | c :: cs, cur =>
    if c.isAlphanum then hasRunAux k cs (cur + 1)
    else (decide (k ≤ cur) || hasRunAux k cs 0)

/-- Is there a run of at least `k` consecutive alphanumeric characters in `l`? -/
def hasAlnumRun (k : Nat) (l : List Char) : Bool :=
  hasRunAux k l 0

/-! ## Pattern Analyzer: `_extract_domain`, `_is_valid_email_format`,
`_check_suspicious_patterns` -/

/-- `_extract_domain`: `None` unless the email splits on `@` into exactly
two parts; the domain part is lowercased and stripped, and rejected when
empty or when it starts or ends with a dot. -/
def extractDomain (email : String) : Option String :=
  let cs := email.data
  if cs.count '@' = 0 then none
  else
    match splitChar '@' cs with
    | [_, d] =>
      let dom := pyStrip (d.map Char.toLower)
      if dom = [] ∨ dom.head? = some '.' ∨ dom.getLast? = some '.' then none
      else some (String.mk dom)
    | _ => none

/-- One domain label of `email_pattern`:
`[a-zA-Z0-9](?:[a-zA-Z0-9-]\x7b0,61\x7d[a-zA-Z0-9])?`, i.e. length 1 to 63,
alphanumeric endpoints, interior alphanumeric or hyphen. -/
def isValidLabel (l : List Char) : Bool :=
  match l with
  | [] => false
  | c :: _ =>
    decide (l.length ≤ 63) && c.isAlphanum && (l.getLastD c).isAlphanum &&
      l.all (fun ch => ch.isAlphanum || ch == '-')

/-- The anchored body of `email_pattern`: a non-empty local part over the
local character class, one `@`, and a domain made of dot-separated valid
labels. -/
def matchesEmailCore (cs : List Char) : Bool :=
  match splitChar '@' cs with
  | [localPart, domainPart] =>
    (!localPart.isEmpty) && localPart.all isLocalChar &&
      (splitChar '.' domainPart).all isValidLabel
  | _ => false

/-- `email_pattern.match`: Python's `$` also matches just before one
trailing newline, so a body match with one trailing LF is accepted too. -/
def matchesEmailPattern (cs : List Char) : Bool :=
  matchesEmailCore cs ||
    (cs.getLast? == some (Char.ofNat 10) && matchesEmailCore cs.dropLast)

/-- `_is_valid_email_format`: empty or over-254-character strings are
rejected before the pattern is tried. -/
def isValidEmailFormat (email : String) : Bool :=
  if email = "" ∨ email.length > 254 then false
  else matchesEmailPattern email.data

/-- `suspicious_keywords` of the v2 checker. -/
def suspiciousKeywords : List String :=
  ["temp", "temporary", "disposable", "throw", "fake", "test", "spam",
   "trash", "dummy", "delete", "remove", "noemail", "nomail", "tempmail",
   "guerrillamail", "mailinator", "10minute", "minute", "hour", "day"]

/-- `suspicious_tlds` of the v2 checker (`.tk` is listed twice in the
source literal; as a set it appears once). -/
def suspiciousTlds : List String :=
  [".tk", ".ml", ".ga", ".cf", ".pw", ".cc", ".ws", ".info"]

/-- `email.split("@")[0]`. -/
def usernameOf (email : String) : List Char :=
  (splitChar '@' email.data).headD []

/-- Character codes of the class `[._%+-]` counted by
`has_special_chars_excess`. -/
def specialCountCodes : List Nat := [46, 95, 37, 43, 45]

/-- `re.match(r"^[0-9]+$", u)`: non-empty all-digit string, or the same
followed by one trailing newline (Python `$`). -/
def numbersOnly (u : List Char) : Bool :=
  ((!u.isEmpty) && u.all Char.isDigit) ||
    (u.getLast? == some (Char.ofNat 10) && (!u.dropLast.isEmpty) &&
      u.dropLast.all Char.isDigit)

/-- The ten boolean flags computed by `_check_suspicious_patterns`. -/
structure SuspiciousPatterns where
  has_numbers_only_username : Bool
  has_random_username : Bool
  has_temp_keywords : Bool
  has_suspicious_tld : Bool
  has_multiple_dots : Bool
  has_plus_addressing : Bool
  has_consecutive_dots : Bool
  has_short_domain : Bool
  has_long_username : Bool
  has_special_chars_excess : Bool
deriving DecidableEq

/-- `_check_suspicious_patterns`. -/
def checkSuspiciousPatterns (email : String) : SuspiciousPatterns :=
  let u := usernameOf email
  let lower := email.data.map Char.toLower
  { has_numbers_only_username := numbersOnly u
    has_random_username := hasAlnumRun 15 u
    has_temp_keywords := suspiciousKeywords.any (fun kw => containsSeq kw.data lower)
    has_suspicious_tld := suspiciousTlds.any (fun t => tailMatches t.data lower)
    has_multiple_dots := decide (email.data.count '.' > 3)
    has_plus_addressing := u.contains '+'
    has_consecutive_dots := containsSeq ['.', '.'] email.data
    has_short_domain :=
      match extractDomain email with
      | some d => decide (d.length < 4)
      | none => false
    has_long_username := decide (u.length > 50)
    has_special_chars_excess :=
      decide ((u.filter (fun c => specialCountCodes.contains c.toNat)).length > 3) }

/-- The `pattern_weights` sum of `check_email`: each true flag contributes
its weight. -/
def patternScore (p : SuspiciousPatterns) : Int :=
  (if p.has_numbers_only_username then 20 else 0) +
  (if p.has_random_username then 15 else 0) +
  (if p.has_temp_keywords then 30 else 0) +
  (if p.has_suspicious_tld then 25 else 0) +
  (if p.has_multiple_dots then 10 else 0) +
  (if p.has_plus_addressing then 5 else 0) +
  (if p.has_consecutive_dots then 20 else 0) +
  (if p.has_short_domain then 10 else 0) +
  (if p.has_long_username then 8 else 0) +
  (if p.has_special_chars_excess then 7 else 0)

/-! ## Data model: `RiskLevel`, `EmailCheckResult`, `to_dict` -/

/-- The `RiskLevel` enumeration. -/
inductive RiskLevel where
  | low
  | medium
  | high
  | critical
deriving DecidableEq

/-- `RiskLevel.value`: the string stored by `to_dict`. -/
def RiskLevel.value : RiskLevel → String
  | .low => "low"
  | .medium => "medium"
  | .high => "high"
  | .critical => "critical"

/-- Python is dynamically typed: the `risk_level` field of
`EmailCheckResult` holds the `RiskLevel` enum on a fresh computation, but
holds the plain string value after a round trip through the cache
(`EmailCheckResult(**cached_result)` rebuilds the dataclass from the
`to_dict` output, where the level was serialized with `.value`). -/
inductive RiskLevelValue where
  | lvl (l : RiskLevel)
  | str (s : String)
deriving DecidableEq

/-- The `isinstance` branch of `to_dict`: an enum is serialized via
`.value`, a string is passed through. -/
def riskLevelValueToDict : RiskLevelValue → String
  | .lvl l => l.value
  | .str s => s

/-- The `checks` bag of `check_email`; `suspicious_patterns = none` models
the initial empty dict, `mx_record_exists` is the reachability tri-state. -/
structure Checks where
  domain_blacklist : Bool
  domain_whitelist : Bool
  suspicious_patterns : Option SuspiciousPatterns
  mx_record_exists : Option Bool
deriving DecidableEq

/-- The `EmailCheckResult` dataclass. -/
structure EmailCheckResult where
  email : String
  is_disposable : Bool
  is_valid_format : Bool
  risk_score : Int
  risk_level : RiskLevelValue
  checks : Checks
  timestamp : Int
  domain : Option String
deriving DecidableEq

/-- The dictionary produced by `EmailCheckResult.to_dict` (field order as
in the source; `risk_level` is always a string here). -/
structure ResultDict where
  email : String
  is_disposable : Bool
  is_valid_format : Bool
  domain : Option String
  risk_score : Int
  risk_level : String
  checks : Checks
  timestamp : Int
deriving DecidableEq

/-- `EmailCheckResult.to_dict`. -/
def EmailCheckResult.to_dict (r : EmailCheckResult) : ResultDict :=
  { email := r.email
    is_disposable := r.is_disposable
    is_valid_format := r.is_valid_format
    domain := r.domain
    risk_score := r.risk_score
    risk_level := riskLevelValueToDict r.risk_level
    checks := r.checks
    timestamp := r.timestamp }

/-- `EmailCheckResult(**cached_result)`: rebuilding the dataclass from a
cached `to_dict` dictionary.  The `risk_level` slot receives the plain
string. -/
def resultFromDict (d : ResultDict) : EmailCheckResult :=
  { email := d.email
    is_disposable := d.is_disposable
    is_valid_format := d.is_valid_format
    risk_score := d.risk_score
    risk_level := .str d.risk_level
    checks := d.checks
    timestamp := d.timestamp
    domain := d.domain }

/-- `_calculate_risk_level`. -/
def calculateRiskLevel (score : Int) : RiskLevel :=
  if score ≥ 90 then .critical
  else if score ≥ 70 then .high
  else if score ≥ 40 then .medium
  else .low

/-! ## Reachability probe: `_check_mx_record` -/

/-- Outcome of `socket.getaddrinfo(domain, None)`, the three exception
branches of `_check_mx_record`. -/
inductive DnsOutcome where
  | success
  | notFound
  | otherError
deriving DecidableEq

/-- `_check_mx_record`: `True` when resolution succeeds, `False` on
`socket.gaierror` (name not found), `None` on any other exception. -/
def checkMxRecord : DnsOutcome → Option Bool
  | .success => some true
  | .notFound => some false
  | .otherError => none

/-! ## The scoring path of `check_email` (cache-miss computation) -/

/-- The body of `check_email` after the cache check and domain update:
format gate, domain extraction, whitelist and blacklist membership,
pattern score, reachability fold, final disposability and risk level.
`wl`/`bl` are the whitelist and disposable sets, `now` the value of
`time.time()`, `dns` the outcome of the resolution attempt for the
domain. -/
def computeResult (wl bl : List String) (email : String) (now : Int)
    (dns : DnsOutcome) : EmailCheckResult :=
  let valid := isValidEmailFormat email
  let base : EmailCheckResult :=
    { email := email
      is_disposable := false
      is_valid_format := valid
      risk_score := 0
      risk_level := .lvl .low
      checks :=
        { domain_blacklist := false
          domain_whitelist := false
          suspicious_patterns := none
          mx_record_exists := none }
      timestamp := now
      domain := none }
  if valid = false then
    { base with risk_score := 100, risk_level := .lvl .critical }
  else
    match extractDomain email with
    | none => { base with risk_score := 100, risk_level := .lvl .critical }
    | some d =>
      if wl.contains d then
        { base with
            domain := some d
            checks := { base.checks with domain_whitelist := true }
            risk_score := 0
            risk_level := .lvl .low }
      else
        let isBl := bl.contains d
        let patterns := checkSuspiciousPatterns email
        let score1 : Int := if isBl then 95 else min (patternScore patterns) 90
        let mx := checkMxRecord dns
        let score2 : Int := if mx = some false then min (score1 + 35) 100 else score1
        let disp := isBl || decide (score2 ≥ 70)
        { base with
            domain := some d
            is_disposable := disp
            risk_score := score2
            risk_level := .lvl (calculateRiskLevel score2)
            checks :=
              { domain_blacklist := isBl
                domain_whitelist := false
                suspicious_patterns := some patterns
                mx_record_exists := mx } }

/-! ## Engine state: domain store, result cache, refresh state -/

/-- One value of the `self.cache` dict: the serialized result and the
storage timestamp that drives expiry. -/
structure CacheEntry where
  result : ResultDict
  timestamp : Int
deriving DecidableEq

/-- The mutable state of `DisposableEmailChecker`. -/
structure CheckerState where
  disposable_domains : List String
  whitelist_domains : List String
  cache : List (String × CacheEntry)
  cache_ttl : Int
  last_update : Int
  update_interval : Int
  max_cache_size : Nat
deriving DecidableEq

/-- A fresh checker (constructor defaults) with the given whitelist and
disposable sets. -/
def mkState (wl bl : List String) : CheckerState :=
  { disposable_domains := bl
    whitelist_domains := wl
    cache := []
    cache_ttl := 3600
    last_update := 0
    update_interval := 86400
    max_cache_size := 10000 }

/-- Python dict assignment `cache[k] = v`: replace in place when the key
exists (insertion order kept), otherwise append at the end. -/
def dictInsert (c : List (String × CacheEntry)) (k : String) (v : CacheEntry) :
    List (String × CacheEntry) :=
  if (c.lookup k).isSome then
    c.map (fun p => if p.1 = k then (k, v) else p)
  else c ++ [(k, v)]

/-- `_is_cache_valid`. -/
def isCacheValid (st : CheckerState) (email : String) (now : Int) : Bool :=
  match st.cache.lookup email with
  | some e => decide (now - e.timestamp < st.cache_ttl)
  | none => false

/-- Stable insertion for the descending-by-timestamp sort used by
`_clean_cache`. -/
def insertDesc (p : String × CacheEntry) :
    List (String × CacheEntry) → List (String × CacheEntry)
  | [] => [p]
  | q :: qs =>
    if q.2.timestamp < p.2.timestamp then p :: q :: qs
    else q :: insertDesc p qs

/-- `sorted(cache.items(), key=timestamp, reverse=True)`: a stable
descending sort. -/
def sortDesc : List (String × CacheEntry) → List (String × CacheEntry)
  | [] => []
  | p :: ps => insertDesc p (sortDesc ps)

/-- Second phase of `_clean_cache`: when the unexpired entries still
exceed the limit, keep only the `max_cache_size` newest. -/
def cleanCacheKeep (c1 : List (String × CacheEntry)) (maxSize : Nat) :
    List (String × CacheEntry) :=
  if c1.length > maxSize then (sortDesc c1).take maxSize else c1

/-- `_clean_cache`: drop expired entries (storage timestamp not above
`now - ttl`), then bound the size. -/
def cleanCache (c : List (String × CacheEntry)) (now ttl : Int) (maxSize : Nat) :
    List (String × CacheEntry) :=
  cleanCacheKeep (c.filter (fun p => decide (now - ttl < p.2.timestamp))) maxSize

/-- The size management of `_cache_result`: sweep only when the entry
count exceeds `max_cache_size`. -/
def cachePut (c : List (String × CacheEntry)) (now ttl : Int) (maxSize : Nat) :
    List (String × CacheEntry) :=
  if c.length > maxSize then cleanCache c now ttl maxSize else c

/-- `_cache_result`: store the serialized result under the email, then
sweep when the entry count exceeds `max_cache_size`. -/
def cacheResult (st : CheckerState) (email : String) (r : EmailCheckResult)
    (now : Int) : CheckerState :=
  { st with cache := cachePut (dictInsert st.cache email ⟨r.to_dict, now⟩) now st.cache_ttl st.max_cache_size }

/-! ## Domain Refresher: `_fetch_external_lists`,
`update_domains_if_needed`, `force_update_domains` -/

/-- Outcome of the whole remote fetch in `_fetch_external_lists`:
either the gathered per-source results (`none` items are tasks that ended
in an exception, skipped by the merge) with the `time.time()` value at
merge completion, or an exception escaping to the outer handler. -/
inductive FetchOutcome where
  | ok (lists : List (Option (List String))) (completionTime : Int)
  | crash
deriving DecidableEq

/-- `set.add` semantics on the list-modelled set. -/
def setAdd (s : List String) (x : String) : List String :=
  if s.contains x then s else s ++ [x]

/-- `set.update(xs)` semantics on the list-modelled set. -/
def setUnion (s : List String) (xs : List String) : List String :=
  xs.foldl setAdd s

/-- `_fetch_external_lists`: merge every fetched set additively into the
disposable set, then write `last_update`; on a crash return `False` with
the state untouched. -/
def fetchExternalLists (st : CheckerState) (f : FetchOutcome) :
    Bool × CheckerState :=
  match f with
  | .ok lists t =>
    let d := lists.foldl
      (fun acc it =>
        match it with
        | some xs => setUnion acc xs
        | none => acc)
      st.disposable_domains
    (true, { st with disposable_domains := d, last_update := t })
  | .crash => (false, st)

/-- `update_domains_if_needed`. -/
def updateDomainsIfNeeded (st : CheckerState) (now : Int) (f : FetchOutcome) :
    Bool × CheckerState :=
  if now - st.last_update > st.update_interval then fetchExternalLists st f
  else (true, st)

/-- `force_update_domains`: reset `last_update` to 0, then fetch. -/
def forceUpdateDomains (st : CheckerState) (f : FetchOutcome) :
    Bool × CheckerState :=
  fetchExternalLists { st with last_update := 0 } f

/-- `add_to_whitelist`. -/
def addToWhitelist (st : CheckerState) (domains : List String) : CheckerState :=
  { st with whitelist_domains := setUnion st.whitelist_domains domains }

/-- `add_to_blacklist`. -/
def addToBlacklist (st : CheckerState) (domains : List String) : CheckerState :=
  { st with disposable_domains := setUnion st.disposable_domains domains }

/-! ## `check_email` and the batch entry points -/

/-- The cache-miss path of `check_email`: update the domain lists if due,
compute the verdict against the updated sets, cache it. -/
def checkEmailCompute (st : CheckerState) (email : String) (now : Int)
    (dns : DnsOutcome) (f : FetchOutcome) : EmailCheckResult × CheckerState :=
  let st1 := (updateDomainsIfNeeded st now f).2
  let r := computeResult st1.whitelist_domains st1.disposable_domains email now dns
  (r, cacheResult st1 email r now)

/-- `check_email`: a valid cache entry is rebuilt from its stored
dictionary and returned unchanged; otherwise the verdict is computed
fresh. -/
def checkEmail (st : CheckerState) (email : String) (now : Int)
    (dns : DnsOutcome) (f : FetchOutcome) : EmailCheckResult × CheckerState :=
  match st.cache.lookup email with
  | some e =>
    if now - e.timestamp < st.cache_ttl then (resultFromDict e.result, st)
    else checkEmailCompute st email now dns f
  | none => checkEmailCompute st email now dns f

/-- `check_emails_batch`: one `check_email` per input, results in input
order (the `asyncio.gather` of the per-email coroutines, linearized). -/
def checkEmailsBatch (st : CheckerState) (emails : List String) (now : Int)
    (dns : String → DnsOutcome) (f : FetchOutcome) :
    List EmailCheckResult × CheckerState :=
  match emails with
  | [] => ([], st)
  | e :: rest =>
    let (r, st1) := checkEmail st e now (dns e) f
    let (rs, st2) := checkEmailsBatch st1 rest now dns f
    (r :: rs, st2)

/-- One entry of the bulk endpoint's `results` array: a serialized verdict
or a per-item error entry carrying the original input. -/
inductive BulkItem where
  | ok (r : ResultDict)
  | err (email : String)
deriving DecidableEq

/-- `process_email` of `bulk_check_endpoint`, folded over the batch:
`val` is the `EmailRequest` normalization (`none` on a validation error,
which becomes a per-item error entry instead of aborting the batch). -/
def bulkProcess (st : CheckerState) (emails : List String) (now : Int)
    (dns : String → DnsOutcome) (f : FetchOutcome)
    (val : String → Option String) : List BulkItem × CheckerState :=
  match emails with
  | [] => ([], st)
  | e :: rest =>
    match val e with
    | none =>
      let (rs, st2) := bulkProcess st rest now dns f val
      (.err e :: rs, st2)
    | some clean =>
      let (r, st1) := checkEmail st clean now (dns clean) f
      let (rs, st2) := bulkProcess st1 rest now dns f val
      (.ok r.to_dict :: rs, st2)

/-! ## Operation alphabet for the temporal claims -/

/-- The operations that touch the shared engine state. -/
inductive Op where
  | check (email : String) (now : Int) (dns : DnsOutcome) (f : FetchOutcome)
  | updateIfNeeded (now : Int) (f : FetchOutcome)
  | forceUpdate (f : FetchOutcome)
  | addWl (domains : List String)
  | addBl (domains : List String)
  | clearCache
deriving DecidableEq

/-- State transition of one operation. -/
def applyOp (st : CheckerState) : Op → CheckerState
  | .check email now dns f => (checkEmail st email now dns f).2
  | .updateIfNeeded now f => (updateDomainsIfNeeded st now f).2
  | .forceUpdate f => (forceUpdateDomains st f).2
  | .addWl domains => addToWhitelist st domains
  | .addBl domains => addToBlacklist st domains
  | .clearCache => { st with cache := [] }

/-! ## Lemmas about splitting -/

theorem splitChar_ne_nil (sep : Char) (cs : List Char) : splitChar sep cs ≠ [] := by
  induction cs with
  | nil => simp [splitChar]
  | cons c cs ih =>
    by_cases h : c = sep
    · simp [splitChar, h]
    · simp only [splitChar, if_neg h]
      rcases hr : splitChar sep cs with _ | ⟨hd, tl⟩
      · exact absurd hr ih
      · simp

theorem splitChar_length (sep : Char) (cs : List Char) :
    (splitChar sep cs).length = cs.count sep + 1 := by
  induction cs with
  | nil => simp [splitChar]
  | cons c cs ih =>
    by_cases h : c = sep
    · simp only [splitChar, if_pos h, List.length_cons, ih, List.count_cons]
      simp [h]
    · rcases hr : splitChar sep cs with _ | ⟨hd, tl⟩
      · exact absurd hr (splitChar_ne_nil sep cs)
      · rw [hr] at ih
        simp only [splitChar, if_neg h, hr, List.length_cons, List.count_cons]
        simp only [List.length_cons] at ih
        simp [h]
        omega

theorem splitChar_single (sep : Char) :
    ∀ cs d : List Char, splitChar sep cs = [d] → cs = d ∧ sep ∉ d := by
  intro cs
  induction cs with
  | nil => intro d h; simp [splitChar] at h; subst h; simp
  | cons c cs ih =>
    intro d h
    by_cases hc : c = sep
    · simp only [splitChar, if_pos hc] at h
      have : (([] : List Char) :: splitChar sep cs).length = 1 := by rw [h]; rfl
      have h2 : (splitChar sep cs).length = 0 := by simpa using this
      exact absurd (List.length_eq_zero.mp h2) (splitChar_ne_nil sep cs)
    · simp only [splitChar, if_neg hc] at h
      rcases hr : splitChar sep cs with _ | ⟨hd, tl⟩
      · exact absurd hr (splitChar_ne_nil sep cs)
      · rw [hr] at h
        simp only [List.cons.injEq] at h
        obtain ⟨h1, h2⟩ := h
        obtain ⟨hcs, hnd⟩ := ih hd (by rw [hr, h2])
        subst h1
        subst hcs
        refine ⟨rfl, ?_⟩
        simp only [List.mem_cons, not_or]
        exact ⟨fun e => hc e.symm, hnd⟩

theorem splitChar_pair (sep : Char) :
    ∀ cs l d : List Char, splitChar sep cs = [l, d] →
      cs = l ++ sep :: d ∧ sep ∉ l ∧ sep ∉ d := by
  intro cs
  induction cs with
  | nil => intro l d h; simp [splitChar] at h
  | cons c cs ih =>
    intro l d h
    by_cases hc : c = sep
    · simp only [splitChar, if_pos hc] at h
      simp only [List.cons.injEq] at h
      obtain ⟨h1, h2⟩ := h
      obtain ⟨hcs, hnd⟩ := splitChar_single sep cs d h2
      subst hc hcs
      simp [← h1, hnd]
    · simp only [splitChar, if_neg hc] at h
      rcases hr : splitChar sep cs with _ | ⟨hd, tl⟩
      · exact absurd hr (splitChar_ne_nil sep cs)
      · rw [hr] at h
        simp only [List.cons.injEq] at h
        obtain ⟨h1, h2⟩ := h
        obtain ⟨hcs, hnl, hnd⟩ := ih hd d (by rw [hr, h2])
        subst h1
        refine ⟨by simp [hcs], ?_, hnd⟩
        simp only [List.mem_cons, not_or]
        exact ⟨fun e => hc e.symm, hnl⟩

theorem getLast?_decomp : ∀ (cs : List Char) (c : Char),
    cs.getLast? = some c → cs = cs.dropLast ++ [c] := by
  intro cs
  induction cs with
  | nil => intro c h; simp at h
  | cons a t ih =>
    intro c h
    cases t with
    | nil => simp_all
    | cons b t2 =>
      have h2 : (b :: t2).getLast? = some c := by
        simpa [List.getLast?] using h
      have := ih c h2
      calc a :: b :: t2 = a :: ((b :: t2).dropLast ++ [c]) := by rw [← this]
        _ = (a :: b :: t2).dropLast ++ [c] := by simp

/-! ## Lemmas about the format check -/

theorem matchesEmailCore_count (cs : List Char) (h : matchesEmailCore cs = true) :
    cs.count '@' = 1 := by
  unfold matchesEmailCore at h
  rcases hsp : splitChar '@' cs with _ | ⟨l, tl⟩
  · exact absurd hsp (splitChar_ne_nil _ cs)
  · rcases tl with _ | ⟨d, tl2⟩
    · rw [hsp] at h; simp at h
    · rcases tl2 with _ | ⟨e, tl3⟩
      · have := splitChar_length '@' cs
        rw [hsp] at this
        simp at this
        omega
      · rw [hsp] at h; simp at h

theorem matchesEmailPattern_count (cs : List Char)
    (h : matchesEmailPattern cs = true) : cs.count '@' = 1 := by
  unfold matchesEmailPattern at h
  rcases Bool.or_eq_true_iff.mp h with h1 | h2
  · exact matchesEmailCore_count cs h1
  · obtain ⟨hl, hc⟩ := Bool.and_eq_true_iff.mp h2
    have hlast : cs.getLast? = some (Char.ofNat 10) := by
      simpa using hl
    have hdecomp := getLast?_decomp cs _ hlast
    have hcnt := matchesEmailCore_count _ hc
    calc cs.count '@' = (cs.dropLast ++ [Char.ofNat 10]).count '@' := by
          rw [← hdecomp]
      _ = cs.dropLast.count '@' + [Char.ofNat 10].count '@' := List.count_append ..
      _ = 1 := by rw [hcnt]; simp [List.count_singleton]

theorem isValidEmailFormat_count (email : String)
    (h : isValidEmailFormat email = true) : email.data.count '@' = 1 := by
  unfold isValidEmailFormat at h
  split at h
  · exact absurd h (by simp)
  · exact matchesEmailPattern_count _ h

theorem isValidEmailFormat_false_of_count (email : String)
    (h : email.data.count '@' ≠ 1) : isValidEmailFormat email = false := by
  by_contra hne
  exact h (isValidEmailFormat_count email (by simpa using hne))

theorem extractDomain_none_of_count (email : String)
    (h : email.data.count '@' ≠ 1) : extractDomain email = none := by
  unfold extractDomain
  by_cases h0 : email.data.count '@' = 0
  · simp [h0]
  · simp only [h0, if_false]
    rcases hsp : splitChar '@' email.data with _ | ⟨l, tl⟩
    · exact absurd hsp (splitChar_ne_nil _ _)
    · rcases tl with _ | ⟨d, tl2⟩
      · rfl
      · rcases tl2 with _ | ⟨e, tl3⟩
        · have := splitChar_length '@' email.data
          rw [hsp] at this
          simp at this
          omega
        · rfl

/-! ## Lemmas about the list-modelled sets -/

theorem contains_iff_mem (s : List String) (x : String) :
    s.contains x = true ↔ x ∈ s := by
  simp [List.contains]

theorem contains_setAdd_self (s : List String) (x : String) :
    (setAdd s x).contains x = true := by
  unfold setAdd
  split
  · assumption
  · rw [contains_iff_mem]
    simp

theorem contains_setAdd_of (s : List String) (x y : String)
    (h : s.contains x = true) : (setAdd s y).contains x = true := by
  unfold setAdd
  split
  · exact h
  · rw [contains_iff_mem] at h ⊢
    simp [h]

theorem contains_setUnion_left (xs : List String) :
    ∀ (s : List String) (x : String), s.contains x = true →
      (setUnion s xs).contains x = true := by
  induction xs with
  | nil => intro s x h; exact h
  | cons y ys ih =>
    intro s x h
    exact ih (setAdd s y) x (contains_setAdd_of s x y h)

theorem contains_setUnion_of_mem (xs : List String) :
    ∀ (s : List String) (x : String), x ∈ xs →
      (setUnion s xs).contains x = true := by
  induction xs with
  | nil => intro s x h; simp at h
  | cons y ys ih =>
    intro s x h
    rcases List.mem_cons.mp h with h1 | h2
    · subst h1
      exact contains_setUnion_left ys (setAdd s x) x (contains_setAdd_self s x)
    · exact ih (setAdd s y) x h2

/-! ## Lemmas about the cache dictionary -/

theorem lookup_map_replace (k : String) (v : CacheEntry) :
    ∀ c : List (String × CacheEntry), (c.lookup k).isSome →
      ((c.map (fun p => if p.1 = k then (k, v) else p)).lookup k) = some v := by
  intro c
  induction c with
  | nil => intro h; simp [List.lookup] at h
  | cons p ps ih =>
    intro h
    by_cases hk : p.1 = k
    · simp only [List.map_cons, if_pos hk]
      simp [List.lookup]
    · have hk3 : (k == p.1) = false := by
        simp only [beq_eq_false_iff_ne, ne_eq]
        exact fun e => hk e.symm
      simp only [List.map_cons, if_neg hk]
      simp only [List.lookup, hk3]
      apply ih
      simpa [List.lookup, hk3] using h

theorem lookup_append_self (k : String) (v : CacheEntry) :
    ∀ c : List (String × CacheEntry), (c.lookup k) = none →
      (c ++ [(k, v)]).lookup k = some v := by
  intro c
  induction c with
  | nil => intro _; simp [List.lookup]
  | cons p ps ih =>
    intro h
    by_cases hk : k = p.1
    · simp [List.lookup, hk] at h
    · have hk3 : (k == p.1) = false := by simp [hk]
      simp only [List.cons_append, List.lookup, hk3]
      apply ih
      simpa [List.lookup, hk3] using h

theorem lookup_dictInsert_self (c : List (String × CacheEntry)) (k : String)
    (v : CacheEntry) : (dictInsert c k v).lookup k = some v := by
  unfold dictInsert
  split
  · exact lookup_map_replace k v c (by assumption)
  · refine lookup_append_self k v c ?_
    rcases h : c.lookup k with _ | e
    · rfl
    · simp_all

theorem dictInsert_length_le (c : List (String × CacheEntry)) (k : String)
    (v : CacheEntry) : (dictInsert c k v).length ≤ c.length + 1 := by
  unfold dictInsert
  split
  · simp
  · simp

theorem mem_dictInsert (c : List (String × CacheEntry)) (k : String)
    (v : CacheEntry) (p : String × CacheEntry) (h : p ∈ dictInsert c k v) :
    p = (k, v) ∨ p ∈ c := by
  unfold dictInsert at h
  split at h
  · rcases List.mem_map.mp h with ⟨q, hq, he⟩
    by_cases hk : q.1 = k
    · left; rw [← he]; simp [hk]
    · right
      rw [← he]
      simp only [if_neg hk]
      exact hq
  · rcases List.mem_append.mp h with h1 | h2
    · right; exact h1
    · left; simpa using h2

theorem mem_insertDesc (p : String × CacheEntry) :
    ∀ (l : List (String × CacheEntry)) (x : String × CacheEntry),
      x ∈ insertDesc p l → x = p ∨ x ∈ l := by
  intro l
  induction l with
  | nil => intro x h; simp [insertDesc] at h; simp [h]
  | cons q qs ih =>
    intro x h
    unfold insertDesc at h
    split at h
    · rcases List.mem_cons.mp h with h1 | h2
      · left; exact h1
      · right; exact h2
    · rcases List.mem_cons.mp h with h1 | h2
      · right; simp [h1]
      · rcases ih x h2 with h3 | h4
        · left; exact h3
        · right; simp [h4]

theorem mem_sortDesc :
    ∀ (l : List (String × CacheEntry)) (x : String × CacheEntry),
      x ∈ sortDesc l → x ∈ l := by
  intro l
  induction l with
  | nil => intro x h; simp [sortDesc] at h
  | cons p ps ih =>
    intro x h
    unfold sortDesc at h
    rcases mem_insertDesc p (sortDesc ps) x h with h1 | h2
    · simp [h1]
    · simp [ih x h2]

theorem mem_cleanCacheKeep (c1 : List (String × CacheEntry)) (m : Nat)
    (x : String × CacheEntry) (h : x ∈ cleanCacheKeep c1 m) : x ∈ c1 := by
  unfold cleanCacheKeep at h
  split at h
  · exact mem_sortDesc _ x (List.mem_of_mem_take h)
  · exact h

theorem mem_cleanCache (c : List (String × CacheEntry)) (now ttl : Int)
    (m : Nat) (x : String × CacheEntry) (h : x ∈ cleanCache c now ttl m) :
    x ∈ c := by
  unfold cleanCache at h
  exact List.mem_of_mem_filter (mem_cleanCacheKeep _ m x h)

theorem lookup_mem (k : String) :
    ∀ (c : List (String × CacheEntry)) (e : CacheEntry),
      c.lookup k = some e → (k, e) ∈ c := by
  intro c
  induction c with
  | nil => intro e h; simp [List.lookup] at h
  | cons p ps ih =>
    intro e h
    by_cases hk : k = p.1
    · simp only [List.lookup, hk, beq_self_eq_true] at h
      have he : p.2 = e := by simpa using h
      have hkp : (k, e) = p := by rw [hk, ← he]
      rw [hkp]
      exact List.mem_cons_self _ _
    · have hk3 : (k == p.1) = false := by
        simp only [beq_eq_false_iff_ne, ne_eq]
        exact hk
      simp only [List.lookup, hk3] at h
      right
      exact ih e (by simpa using h)

/-! ## State-preservation lemmas -/

theorem fetch_preserves (st : CheckerState) (f : FetchOutcome) :
    ((fetchExternalLists st f).2).whitelist_domains = st.whitelist_domains ∧
    ((fetchExternalLists st f).2).cache = st.cache ∧
    ((fetchExternalLists st f).2).cache_ttl = st.cache_ttl ∧
    ((fetchExternalLists st f).2).max_cache_size = st.max_cache_size := by
  unfold fetchExternalLists
  cases f <;> simp

theorem update_preserves (st : CheckerState) (now : Int) (f : FetchOutcome) :
    ((updateDomainsIfNeeded st now f).2).whitelist_domains = st.whitelist_domains ∧
    ((updateDomainsIfNeeded st now f).2).cache = st.cache ∧
    ((updateDomainsIfNeeded st now f).2).cache_ttl = st.cache_ttl ∧
    ((updateDomainsIfNeeded st now f).2).max_cache_size = st.max_cache_size := by
  unfold updateDomainsIfNeeded
  split
  · exact fetch_preserves st f
  · simp

theorem fetch_disposable_mono (st : CheckerState) (f : FetchOutcome)
    (x : String) (h : st.disposable_domains.contains x = true) :
    ((fetchExternalLists st f).2).disposable_domains.contains x = true := by
  unfold fetchExternalLists
  cases f with
  | crash => exact h
  | ok lists t =>
    simp only []
    induction lists generalizing st with
    | nil => exact h
    | cons it rest ih =>
      cases it with
      | none =>
        simpa using ih { st with disposable_domains := st.disposable_domains } h
      | some xs =>
        have h2 : (setUnion st.disposable_domains xs).contains x = true :=
          contains_setUnion_left xs _ x h
        simpa using ih { st with disposable_domains := setUnion st.disposable_domains xs } h2

theorem update_disposable_mono (st : CheckerState) (now : Int) (f : FetchOutcome)
    (x : String) (h : st.disposable_domains.contains x = true) :
    ((updateDomainsIfNeeded st now f).2).disposable_domains.contains x = true := by
  unfold updateDomainsIfNeeded
  split
  · exact fetch_disposable_mono st f x h
  · exact h

/-! ## Score-range lemmas -/

theorem patternScore_nonneg (p : SuspiciousPatterns) : 0 ≤ patternScore p := by
  unfold patternScore
  have h : ∀ (b : Bool) (n : Int), 0 ≤ n → 0 ≤ (if b then n else 0) := by
    intro b n hn
    cases b <;> simp [hn]
  repeat' apply add_nonneg
  all_goals apply h _ _ (by norm_num)

theorem computeResult_score_range (wl bl : List String) (email : String)
    (now : Int) (dns : DnsOutcome) :
    0 ≤ (computeResult wl bl email now dns).risk_score ∧
    (computeResult wl bl email now dns).risk_score ≤ 100 := by
  unfold computeResult
  by_cases hv : isValidEmailFormat email = false
  · simp [hv]
  · simp only [hv, if_false]
    rcases hd : extractDomain email with _ | d
    · simp
    · simp only []
      by_cases hw : wl.contains d = true
      · have hw2 : d ∈ wl := (contains_iff_mem wl d).mp hw
        simp [hw2]
      · simp only [hw, if_false]
        have hP : 0 ≤ patternScore (checkSuspiciousPatterns email) :=
          patternScore_nonneg _
        by_cases hmx : checkMxRecord dns = some false <;>
          by_cases hbl : bl.contains d = true <;>
            simp only [hmx, hbl, if_true, if_false, if_pos, if_neg] <;>
              simp [min_def] <;> split_ifs <;> omega

theorem checkEmail_miss (st : CheckerState) (email : String) (now : Int)
    (dns : DnsOutcome) (f : FetchOutcome)
    (h : isCacheValid st email now = false) :
    checkEmail st email now dns f = checkEmailCompute st email now dns f := by
  unfold checkEmail
  unfold isCacheValid at h
  rcases hl : st.cache.lookup email with _ | e
  · rfl
  · rw [hl] at h
    simp only [decide_eq_false_iff_not] at h
    simp [h]

theorem computeResult_email (wl bl : List String) (email : String)
    (now : Int) (dns : DnsOutcome) :
    (computeResult wl bl email now dns).email = email := by
  unfold computeResult
  by_cases hv : isValidEmailFormat email = false
  · simp [hv]
  · simp only [hv, if_false]
    rcases hd : extractDomain email with _ | d
    · simp
    · simp only []
      split
      all_goals first
        | rfl
        | (split <;> rfl)

theorem checkEmailCompute_fst (st : CheckerState) (email : String) (now : Int)
    (dns : DnsOutcome) (f : FetchOutcome) :
    (checkEmailCompute st email now dns f).1 =
      computeResult ((updateDomainsIfNeeded st now f).2).whitelist_domains
        ((updateDomainsIfNeeded st now f).2).disposable_domains email now dns := rfl

theorem checkEmailCompute_snd (st : CheckerState) (email : String) (now : Int)
    (dns : DnsOutcome) (f : FetchOutcome) :
    (checkEmailCompute st email now dns f).2 =
      cacheResult (updateDomainsIfNeeded st now f).2 email
        (checkEmailCompute st email now dns f).1 now := rfl

theorem computeResult_whitelist (wl bl : List String) (email : String)
    (now : Int) (dns : DnsOutcome) (d : String)
    (hv : isValidEmailFormat email = true)
    (hd : extractDomain email = some d)
    (hw : wl.contains d = true) :
    computeResult wl bl email now dns =
      { email := email, is_disposable := false, is_valid_format := true,
        risk_score := 0, risk_level := .lvl .low,
        checks := { domain_blacklist := false, domain_whitelist := true,
                    suspicious_patterns := none, mx_record_exists := none },
        timestamp := now, domain := some d } := by
  have hw2 : d ∈ wl := (contains_iff_mem wl d).mp hw
  unfold computeResult
  simp [hv, hd, hw2]

/-! ## Claim C1 -/

/-- Claim C1 as stated is false: for the email `" a@gmail.com"` the
extracted domain `gmail.com` is in the whitelist, yet `check_email`
rejects the address at the format gate first and returns risk score 100
with the whitelist flag unset, not the score-0 whitelist verdict. -/
theorem whitelist_claim_counterexample :
    extractDomain " a@gmail.com" = some "gmail.com" ∧
    (mkState ["gmail.com"] []).whitelist_domains.contains "gmail.com" = true ∧
    (checkEmail (mkState ["gmail.com"] []) " a@gmail.com" 0
        DnsOutcome.success FetchOutcome.crash).1.risk_score = 100 ∧
    (checkEmail (mkState ["gmail.com"] []) " a@gmail.com" 0
        DnsOutcome.success FetchOutcome.crash).1.checks.domain_whitelist = false := by
  decide

/-- Claim C1 (amended): for every valid-format email whose extracted
domain is whitelisted, a cache-miss `check_email` returns exactly the
whitelist verdict: score 0, level LOW, not disposable, whitelist flag
true, empty pattern bag and no reachability result — and the returned
verdict is a fixed record independent of the disposable set, of the DNS
outcome and of the fetch outcome, so blacklist membership of the same
domain never changes it. -/
theorem whitelist_short_circuits (st : CheckerState) (email : String)
    (now : Int) (dns : DnsOutcome) (f : FetchOutcome) (d : String)
    (hmiss : isCacheValid st email now = false)
    (hv : isValidEmailFormat email = true)
    (hd : extractDomain email = some d)
    (hw : st.whitelist_domains.contains d = true) :
    (checkEmail st email now dns f).1 =
      { email := email, is_disposable := false, is_valid_format := true,
        risk_score := 0, risk_level := .lvl .low,
        checks := { domain_blacklist := false, domain_whitelist := true,
                    suspicious_patterns := none, mx_record_exists := none },
        timestamp := now, domain := some d } := by
  rw [checkEmail_miss st email now dns f hmiss, checkEmailCompute_fst]
  have hw1 : ((updateDomainsIfNeeded st now f).2).whitelist_domains.contains d = true := by
    rw [(update_preserves st now f).1]; exact hw
  exact computeResult_whitelist _ _ email now dns d hv hd hw1

/-- Witness for C1: a domain placed in both the whitelist and the
blacklist still gets the score-0 whitelist verdict, with a
definitively-negative DNS outcome available. -/
theorem whitelist_short_circuits_witness :
    (checkEmail (mkState ["example.com"] ["example.com"]) "admin@example.com" 7
        DnsOutcome.notFound FetchOutcome.crash).1 =
      { email := "admin@example.com", is_disposable := false, is_valid_format := true,
        risk_score := 0, risk_level := .lvl .low,
        checks := { domain_blacklist := false, domain_whitelist := true,
                    suspicious_patterns := none, mx_record_exists := none },
        timestamp := 7, domain := some "example.com" } :=
  whitelist_short_circuits (mkState ["example.com"] ["example.com"])
    "admin@example.com" 7 .notFound .crash "example.com"
    (by decide) (by decide) (by decide) (by decide)

/-! ## Claim C2 -/

/-- Claim C2 as stated is false: for the email `" a@mailinator.com"` the
extracted domain `mailinator.com` is blacklisted and not whitelisted, yet
`check_email` rejects the address at the format gate first and returns a
verdict with `is_disposable = false` and the blacklist flag unset. -/
theorem blacklist_claim_counterexample :
    extractDomain " a@mailinator.com" = some "mailinator.com" ∧
    (mkState [] ["mailinator.com"]).disposable_domains.contains "mailinator.com" = true ∧
    (mkState [] ["mailinator.com"]).whitelist_domains.contains "mailinator.com" = false ∧
    (checkEmail (mkState [] ["mailinator.com"]) " a@mailinator.com" 0
        DnsOutcome.success FetchOutcome.crash).1.is_disposable = false ∧
    (checkEmail (mkState [] ["mailinator.com"]) " a@mailinator.com" 0
        DnsOutcome.success FetchOutcome.crash).1.checks.domain_blacklist = false := by
  decide

/-- Claim C2 (amended): for every valid-format email whose extracted
domain is blacklisted and not whitelisted, a cache-miss `check_email`
sets `is_disposable` and the blacklist flag, records the pattern flags in
the checks bag, and keeps the blacklist-derived score: 95, or 100 when
the reachability probe is definitively negative — never the pattern
score — so the final score is at least 70. -/
theorem blacklist_sets_disposable (st : CheckerState) (email : String)
    (now : Int) (dns : DnsOutcome) (f : FetchOutcome) (d : String)
    (hmiss : isCacheValid st email now = false)
    (hv : isValidEmailFormat email = true)
    (hd : extractDomain email = some d)
    (hw : st.whitelist_domains.contains d = false)
    (hb : st.disposable_domains.contains d = true) :
    (checkEmail st email now dns f).1.is_disposable = true ∧
    (checkEmail st email now dns f).1.checks.domain_blacklist = true ∧
    (checkEmail st email now dns f).1.checks.suspicious_patterns =
      some (checkSuspiciousPatterns email) ∧
    (checkEmail st email now dns f).1.risk_score =
      (if dns = DnsOutcome.notFound then 100 else 95) ∧
    70 ≤ (checkEmail st email now dns f).1.risk_score := by
  rw [checkEmail_miss st email now dns f hmiss, checkEmailCompute_fst]
  have hw1 : ((updateDomainsIfNeeded st now f).2).whitelist_domains.contains d = false := by
    rw [(update_preserves st now f).1]; exact hw
  have hb1 : ((updateDomainsIfNeeded st now f).2).disposable_domains.contains d = true :=
    update_disposable_mono st now f d hb
  have hb2 : d ∈ ((updateDomainsIfNeeded st now f).2).disposable_domains :=
    (contains_iff_mem _ d).mp hb1
  have hw2 : d ∉ ((updateDomainsIfNeeded st now f).2).whitelist_domains := by
    intro hm
    rw [(contains_iff_mem _ d).mpr hm] at hw1
    exact absurd hw1 (by simp)
  unfold computeResult
  simp only [hv, hd]
  cases dns <;> simp [hw2, hb2, checkMxRecord, hw1, hb1]

/-- Witness for C2: `fake@mailinator.com` against a blacklist holding
`mailinator.com`, with a successful DNS resolution. -/
theorem blacklist_sets_disposable_witness :
    (checkEmail (mkState [] ["mailinator.com"]) "fake@mailinator.com" 3
        DnsOutcome.success FetchOutcome.crash).1.is_disposable = true ∧
    (checkEmail (mkState [] ["mailinator.com"]) "fake@mailinator.com" 3
        DnsOutcome.success FetchOutcome.crash).1.checks.domain_blacklist = true ∧
    (checkEmail (mkState [] ["mailinator.com"]) "fake@mailinator.com" 3
        DnsOutcome.success FetchOutcome.crash).1.checks.suspicious_patterns =
      some (checkSuspiciousPatterns "fake@mailinator.com") ∧
    (checkEmail (mkState [] ["mailinator.com"]) "fake@mailinator.com" 3
        DnsOutcome.success FetchOutcome.crash).1.risk_score =
      (if DnsOutcome.success = DnsOutcome.notFound then 100 else 95) ∧
    70 ≤ (checkEmail (mkState [] ["mailinator.com"]) "fake@mailinator.com" 3
        DnsOutcome.success FetchOutcome.crash).1.risk_score :=
  blacklist_sets_disposable (mkState [] ["mailinator.com"]) "fake@mailinator.com"
    3 .success .crash "mailinator.com"
    (by decide) (by decide) (by decide) (by decide) (by decide)

/-! ## Claim C3 -/

/-- Claim C3: on a non-short-circuited check (valid format, extractable
domain, not whitelisted), the reachability outcome folds in as a
tri-state: a definitively negative probe adds 35 to the score capped at
100, a positive or indeterminate probe leaves the score unchanged; the
probe itself is `some true` on successful resolution, `some false` only
on a not-found resolution error, and `none` on any other error, so an
indeterminate probe never increases risk. -/
theorem reachability_tri_state (wl bl : List String) (email : String)
    (now : Int) (o : DnsOutcome) (d : String)
    (hv : isValidEmailFormat email = true)
    (hd : extractDomain email = some d)
    (hw : wl.contains d = false) :
    ((computeResult wl bl email now o).risk_score =
      if checkMxRecord o = some false then
        min ((computeResult wl bl email now DnsOutcome.otherError).risk_score + 35) 100
      else (computeResult wl bl email now DnsOutcome.otherError).risk_score) ∧
    (computeResult wl bl email now o).checks.mx_record_exists = checkMxRecord o ∧
    (computeResult wl bl email now DnsOutcome.success).risk_score =
      (computeResult wl bl email now DnsOutcome.otherError).risk_score ∧
    checkMxRecord DnsOutcome.success = some true ∧
    checkMxRecord DnsOutcome.notFound = some false ∧
    checkMxRecord DnsOutcome.otherError = none := by
  have hw2 : d ∉ wl := by
    intro hm
    rw [(contains_iff_mem _ d).mpr hm] at hw
    exact absurd hw (by simp)
  unfold computeResult
  simp only [hv, hd]
  cases o <;> simp [hw2, checkMxRecord, hw]

/-- Witness for C3: `john@example.com` with empty domain sets and a
not-found probe gets 35 added to its pattern score of 0. -/
theorem reachability_tri_state_witness :
    (((computeResult [] [] "john@example.com" 0 DnsOutcome.notFound).risk_score =
      if checkMxRecord DnsOutcome.notFound = some false then
        min ((computeResult [] [] "john@example.com" 0 DnsOutcome.otherError).risk_score + 35) 100
      else (computeResult [] [] "john@example.com" 0 DnsOutcome.otherError).risk_score) ∧
    (computeResult [] [] "john@example.com" 0 DnsOutcome.notFound).checks.mx_record_exists =
      checkMxRecord DnsOutcome.notFound ∧
    (computeResult [] [] "john@example.com" 0 DnsOutcome.success).risk_score =
      (computeResult [] [] "john@example.com" 0 DnsOutcome.otherError).risk_score ∧
    checkMxRecord DnsOutcome.success = some true ∧
    checkMxRecord DnsOutcome.notFound = some false ∧
    checkMxRecord DnsOutcome.otherError = none) :=
  reachability_tri_state [] [] "john@example.com" 0 .notFound "example.com"
    (by decide) (by decide) (by decide)

/-! ## Claim C4 -/

/-- The final dot-separated segment of a string — the TLD of an address
whose domain part contains the last dot. -/
def lastDotSegment (email : String) : List Char :=
  (splitChar '.' email.data).getLastD []

theorem matchesEmailCore_decomp (cs : List Char)
    (h : matchesEmailCore cs = true) :
    ∃ localPart domainPart,
      cs = localPart ++ '@' :: domainPart ∧ localPart ≠ [] ∧
      localPart.all isLocalChar = true ∧
      (splitChar '.' domainPart).all isValidLabel = true := by
  unfold matchesEmailCore at h
  rcases hsp : splitChar '@' cs with _ | ⟨l, tl⟩
  · exact absurd hsp (splitChar_ne_nil _ cs)
  · rcases tl with _ | ⟨dm, tl2⟩
    · rw [hsp] at h; simp at h
    · rcases tl2 with _ | ⟨e, tl3⟩
      · rw [hsp] at h
        simp only [Bool.and_eq_true, Bool.not_eq_true'] at h
        obtain ⟨⟨h1, h2⟩, h3⟩ := h
        obtain ⟨hcs, _, _⟩ := splitChar_pair '@' cs l dm hsp
        refine ⟨l, dm, hcs, ?_, h2, h3⟩
        intro he
        rw [he] at h1
        simp at h1
      · rw [hsp] at h; simp at h

/-- Claim C4 as stated is false: the format check enforces no minimum TLD
length.  `a@b.c` (one-character TLD) and `a@b` (dotless domain, no TLD at
all) are both accepted by `_is_valid_email_format`. -/
theorem format_tld_counterexample :
    isValidEmailFormat "a@b.c" = true ∧ (lastDotSegment "a@b.c").length = 1 ∧
    isValidEmailFormat "a@b" = true ∧ "a@b".data.count '.' = 0 := by
  decide

/-- Claim C4 (amended): the format check accepts only non-empty strings
of at most 254 characters containing exactly one `@`, whose body (up to
one trailing newline admitted by Python's `$`) splits into a non-empty
local part over the local character class and a domain of dot-separated
labels (1 to 63 characters, alphanumeric endpoints, interior
alphanumerics or hyphens); empty strings, strings with multiple `@` and
oversized strings are rejected.  No minimum TLD length is enforced. -/
theorem format_accepts_only_grammar (email : String)
    (hv : isValidEmailFormat email = true) :
    email ≠ "" ∧ email.length ≤ 254 ∧ email.data.count '@' = 1 ∧
    ∃ core localPart domainPart,
      (email.data = core ∨ email.data = core ++ [Char.ofNat 10]) ∧
      core = localPart ++ '@' :: domainPart ∧ localPart ≠ [] ∧
      localPart.all isLocalChar = true ∧
      (splitChar '.' domainPart).all isValidLabel = true := by
  have hcnt := isValidEmailFormat_count email hv
  unfold isValidEmailFormat at hv
  split at hv
  · exact absurd hv (by simp)
  · rename_i hguard
    push_neg at hguard
    refine ⟨hguard.1, by omega, hcnt, ?_⟩
    unfold matchesEmailPattern at hv
    rcases Bool.or_eq_true_iff.mp hv with h1 | h2
    · obtain ⟨l, dm, hcs, hne, hall, hlab⟩ := matchesEmailCore_decomp _ h1
      exact ⟨email.data, l, dm, Or.inl rfl, hcs, hne, hall, hlab⟩
    · obtain ⟨hl, hc⟩ := Bool.and_eq_true_iff.mp h2
      have hlast : email.data.getLast? = some (Char.ofNat 10) := by simpa using hl
      obtain ⟨l, dm, hcs, hne, hall, hlab⟩ := matchesEmailCore_decomp _ hc
      exact ⟨email.data.dropLast, l, dm,
        Or.inr (getLast?_decomp email.data _ hlast), hcs, hne, hall, hlab⟩

/-- Witness for C4: the grammar decomposition at `john.doe@gmail.com`. -/
theorem format_accepts_only_grammar_witness :
    "john.doe@gmail.com" ≠ "" ∧ ("john.doe@gmail.com" : String).length ≤ 254 ∧
    "john.doe@gmail.com".data.count '@' = 1 ∧
    ∃ core localPart domainPart,
      ("john.doe@gmail.com".data = core ∨
        "john.doe@gmail.com".data = core ++ [Char.ofNat 10]) ∧
      core = localPart ++ '@' :: domainPart ∧ localPart ≠ [] ∧
      localPart.all isLocalChar = true ∧
      (splitChar '.' domainPart).all isValidLabel = true :=
  format_accepts_only_grammar "john.doe@gmail.com" (by decide)

/-! ## Claim C7 -/

/-- Claim C7: for every input without exactly one `@`, domain extraction
returns `none` and a cache-miss `check_email` scores the input 100 (the
format gate already rejects any such input, before extraction is
reached). -/
theorem no_single_at_scores_100 (st : CheckerState) (email : String)
    (now : Int) (dns : DnsOutcome) (f : FetchOutcome)
    (h : email.data.count '@' ≠ 1)
    (hmiss : isCacheValid st email now = false) :
    extractDomain email = none ∧
    (checkEmail st email now dns f).1.risk_score = 100 := by
  refine ⟨extractDomain_none_of_count email h, ?_⟩
  rw [checkEmail_miss st email now dns f hmiss, checkEmailCompute_fst]
  have hv := isValidEmailFormat_false_of_count email h
  unfold computeResult
  simp [hv]

/-- Witness for C7: the at-less input `invalid-email`. -/
theorem no_single_at_scores_100_witness :
    extractDomain "invalid-email" = none ∧
    (checkEmail (mkState [] []) "invalid-email" 0
        DnsOutcome.success FetchOutcome.crash).1.risk_score = 100 :=
  no_single_at_scores_100 (mkState [] []) "invalid-email" 0 .success .crash
    (by decide) (by decide)

/-! ## Claim C5 -/

/-- Invariant of reachable states: every cached verdict has a risk score
in `[0, 100]`. -/
def cacheScoresOK (st : CheckerState) : Prop :=
  ∀ p ∈ st.cache, 0 ≤ p.2.result.risk_score ∧ p.2.result.risk_score ≤ 100

theorem mem_cachePut (c : List (String × CacheEntry)) (now ttl : Int)
    (m : Nat) (x : String × CacheEntry) (h : x ∈ cachePut c now ttl m) :
    x ∈ c := by
  unfold cachePut at h
  split at h
  · exact mem_cleanCache c now ttl m x h
  · exact h

theorem cacheResult_cache_small (st : CheckerState) (email : String)
    (r : EmailCheckResult) (now : Int)
    (hsize : st.cache.length < st.max_cache_size) :
    (cacheResult st email r now).cache =
      dictInsert st.cache email ⟨r.to_dict, now⟩ := by
  unfold cacheResult cachePut
  have := dictInsert_length_le st.cache email ⟨r.to_dict, now⟩
  rw [if_neg (by omega)]

theorem checkEmailCompute_scores (st : CheckerState) (email : String)
    (now : Int) (dns : DnsOutcome) (f : FetchOutcome)
    (hc : cacheScoresOK st) :
    0 ≤ (checkEmailCompute st email now dns f).1.risk_score ∧
    (checkEmailCompute st email now dns f).1.risk_score ≤ 100 ∧
    cacheScoresOK (checkEmailCompute st email now dns f).2 := by
  have hr := computeResult_score_range
    ((updateDomainsIfNeeded st now f).2).whitelist_domains
    ((updateDomainsIfNeeded st now f).2).disposable_domains email now dns
  rw [checkEmailCompute_fst]
  refine ⟨hr.1, hr.2, ?_⟩
  rw [checkEmailCompute_snd]
  intro p hp
  have hp1 : p ∈ cachePut
      (dictInsert ((updateDomainsIfNeeded st now f).2).cache email
        ⟨(checkEmailCompute st email now dns f).1.to_dict, now⟩)
      now ((updateDomainsIfNeeded st now f).2).cache_ttl
      ((updateDomainsIfNeeded st now f).2).max_cache_size := hp
  have hp2 := mem_cachePut _ _ _ _ p hp1
  rcases mem_dictInsert _ _ _ p hp2 with h1 | h2
  · rw [h1]
    rw [checkEmailCompute_fst]
    exact hr
  · rw [(update_preserves st now f).2.1] at h2
    exact hc p h2

/-- Claim C5: from any state whose cache respects the score range, the
verdict returned by `check_email` has a risk score in `[0, 100]` on every
path (fresh computation or cache replay), and the range invariant is
preserved. -/
theorem risk_score_in_range (st : CheckerState) (email : String) (now : Int)
    (dns : DnsOutcome) (f : FetchOutcome) (hc : cacheScoresOK st) :
    0 ≤ (checkEmail st email now dns f).1.risk_score ∧
    (checkEmail st email now dns f).1.risk_score ≤ 100 ∧
    cacheScoresOK (checkEmail st email now dns f).2 := by
  unfold checkEmail
  rcases hl : st.cache.lookup email with _ | e
  · simp only [hl]
    exact checkEmailCompute_scores st email now dns f hc
  · simp only [hl]
    split
    · have hmem : (email, e) ∈ st.cache := lookup_mem email st.cache e hl
      have hb := hc (email, e) hmem
      exact ⟨hb.1, hb.2, hc⟩
    · exact checkEmailCompute_scores st email now dns f hc

/-- Witness for C5: a fresh checker state (empty cache) and a concrete
check. -/
theorem risk_score_in_range_witness :
    0 ≤ (checkEmail (mkState [] []) "john.doe@gmail.com" 0
        DnsOutcome.success FetchOutcome.crash).1.risk_score ∧
    (checkEmail (mkState [] []) "john.doe@gmail.com" 0
        DnsOutcome.success FetchOutcome.crash).1.risk_score ≤ 100 ∧
    cacheScoresOK (checkEmail (mkState [] []) "john.doe@gmail.com" 0
        DnsOutcome.success FetchOutcome.crash).2 :=
  risk_score_in_range (mkState [] []) "john.doe@gmail.com" 0 .success .crash
    (by intro p hp; simp [mkState] at hp)

/-! ## Claim C6 -/

theorem to_dict_resultFromDict (d : ResultDict) :
    (resultFromDict d).to_dict = d := rfl

/-- Claim C6 as stated is false: the second call is a cache hit, and its
serialized payload and timestamp equal the first call's, but the rebuilt
verdict object is not bit-identical to the first one — the cached
dictionary stores the risk level as its string value, and
`EmailCheckResult(**cached_result)` puts that plain string back into the
`risk_level` slot instead of the enum. -/
theorem cache_hit_not_bit_identical :
    (checkEmail (checkEmail (mkState ["example.com"] []) "admin@example.com" 0
          DnsOutcome.success FetchOutcome.crash).2 "admin@example.com" 1
        DnsOutcome.notFound FetchOutcome.crash).1 ≠
      (checkEmail (mkState ["example.com"] []) "admin@example.com" 0
          DnsOutcome.success FetchOutcome.crash).1 ∧
    (checkEmail (checkEmail (mkState ["example.com"] []) "admin@example.com" 0
          DnsOutcome.success FetchOutcome.crash).2 "admin@example.com" 1
        DnsOutcome.notFound FetchOutcome.crash).1.risk_level =
      RiskLevelValue.str "low" ∧
    (checkEmail (mkState ["example.com"] []) "admin@example.com" 0
        DnsOutcome.success FetchOutcome.crash).1.risk_level =
      RiskLevelValue.lvl RiskLevel.low := by
  decide

/-- Claim C6 (amended): when the first call is a cache miss, the cache is
below its size limit, and the second call comes within `cache_ttl` of the
first, the second call is a pure cache hit: it changes no state, performs
no recomputation (its DNS and fetch oracles are irrelevant), keeps the
first call's timestamp, and returns exactly the first verdict rebuilt
from its serialized dictionary — equal to the first verdict after
serialization, though not as an in-memory object (the risk level comes
back as the serialized string). -/
theorem cache_hit_round_trip (st : CheckerState) (email : String)
    (t0 t1 : Int) (dns1 dns2 : DnsOutcome) (f1 f2 : FetchOutcome)
    (hmiss : isCacheValid st email t0 = false)
    (hsize : st.cache.length < st.max_cache_size)
    (hts : t1 - t0 < st.cache_ttl) :
    (checkEmail (checkEmail st email t0 dns1 f1).2 email t1 dns2 f2).2 =
      (checkEmail st email t0 dns1 f1).2 ∧
    (checkEmail (checkEmail st email t0 dns1 f1).2 email t1 dns2 f2).1 =
      resultFromDict ((checkEmail st email t0 dns1 f1).1.to_dict) ∧
    (checkEmail (checkEmail st email t0 dns1 f1).2 email t1 dns2 f2).1.to_dict =
      (checkEmail st email t0 dns1 f1).1.to_dict ∧
    (checkEmail (checkEmail st email t0 dns1 f1).2 email t1 dns2 f2).1.timestamp =
      (checkEmail st email t0 dns1 f1).1.timestamp := by
  rw [checkEmail_miss st email t0 dns1 f1 hmiss]
  have hst1 := update_preserves st t0 f1
  have hsize1 : ((updateDomainsIfNeeded st t0 f1).2).cache.length <
      ((updateDomainsIfNeeded st t0 f1).2).max_cache_size := by
    rw [hst1.2.1, hst1.2.2.2]; exact hsize
  have hs2 := checkEmailCompute_snd st email t0 dns1 f1
  have hcache : ((checkEmailCompute st email t0 dns1 f1).2).cache =
      dictInsert ((updateDomainsIfNeeded st t0 f1).2).cache email
        ⟨(checkEmailCompute st email t0 dns1 f1).1.to_dict, t0⟩ := by
    rw [hs2]
    exact cacheResult_cache_small _ email _ t0 hsize1
  have hlook : (((checkEmailCompute st email t0 dns1 f1).2).cache).lookup email =
      some ⟨(checkEmailCompute st email t0 dns1 f1).1.to_dict, t0⟩ := by
    rw [hcache]
    exact lookup_dictInsert_self _ email _
  have httl : ((checkEmailCompute st email t0 dns1 f1).2).cache_ttl = st.cache_ttl := by
    rw [hs2]
    show ((updateDomainsIfNeeded st t0 f1).2).cache_ttl = st.cache_ttl
    exact hst1.2.2.1
  have hcond : t1 - (⟨(checkEmailCompute st email t0 dns1 f1).1.to_dict, t0⟩ :
      CacheEntry).timestamp < ((checkEmailCompute st email t0 dns1 f1).2).cache_ttl := by
    rw [httl]
    exact hts
  unfold checkEmail
  rw [hlook]
  simp only [if_pos hcond]
  exact ⟨trivial, trivial, to_dict_resultFromDict _, rfl⟩

/-- Witness for C6: a whitelisted email checked at times 0 and 10 with a
TTL of 3600. -/
theorem cache_hit_round_trip_witness :
    (checkEmail (checkEmail (mkState ["example.com"] []) "admin@example.com" 0
          DnsOutcome.success FetchOutcome.crash).2 "admin@example.com" 10
        DnsOutcome.notFound FetchOutcome.crash).2 =
      (checkEmail (mkState ["example.com"] []) "admin@example.com" 0
          DnsOutcome.success FetchOutcome.crash).2 ∧
    (checkEmail (checkEmail (mkState ["example.com"] []) "admin@example.com" 0
          DnsOutcome.success FetchOutcome.crash).2 "admin@example.com" 10
        DnsOutcome.notFound FetchOutcome.crash).1 =
      resultFromDict ((checkEmail (mkState ["example.com"] []) "admin@example.com" 0
          DnsOutcome.success FetchOutcome.crash).1.to_dict) ∧
    (checkEmail (checkEmail (mkState ["example.com"] []) "admin@example.com" 0
          DnsOutcome.success FetchOutcome.crash).2 "admin@example.com" 10
        DnsOutcome.notFound FetchOutcome.crash).1.to_dict =
      (checkEmail (mkState ["example.com"] []) "admin@example.com" 0
          DnsOutcome.success FetchOutcome.crash).1.to_dict ∧
    (checkEmail (checkEmail (mkState ["example.com"] []) "admin@example.com" 0
          DnsOutcome.success FetchOutcome.crash).2 "admin@example.com" 10
        DnsOutcome.notFound FetchOutcome.crash).1.timestamp =
      (checkEmail (mkState ["example.com"] []) "admin@example.com" 0
          DnsOutcome.success FetchOutcome.crash).1.timestamp :=
  cache_hit_round_trip (mkState ["example.com"] []) "admin@example.com" 0 10
    .success .notFound .crash .crash (by decide) (by decide) (by decide)

/-! ## Claim C8 -/

/-- Claim C8 as stated is false: starting from a state whose sets are
disjoint (empty whitelist, `x.com` disposable), the administrative
`add_to_whitelist` of `x.com` leaves `x.com` in the disposable set as
well — no mutating operation removes a domain from the other set, so
disjointness is not preserved. -/
theorem disjointness_counterexample :
    (mkState [] ["x.com"]).whitelist_domains = [] ∧
    (addToWhitelist (mkState [] ["x.com"]) ["x.com"]).whitelist_domains.contains
      "x.com" = true ∧
    (addToWhitelist (mkState [] ["x.com"]) ["x.com"]).disposable_domains.contains
      "x.com" = true := by
  decide

/-- Claim C8 (amended): the mutating operations are additive and
one-sided — `add_to_whitelist` extends the whitelist and leaves the
disposable set untouched, `add_to_blacklist` extends the disposable set
and leaves the whitelist untouched, and the refresh merge only extends
the disposable set — but no operation removes a domain from the opposite
set, so the two sets are not kept disjoint (a whitelisted domain may
simultaneously stay disposable; at check time whitelist precedence
resolves the overlap). -/
theorem domain_sets_additive (st : CheckerState) (ds : List String)
    (f : FetchOutcome) :
    (addToWhitelist st ds).disposable_domains = st.disposable_domains ∧
    (addToBlacklist st ds).whitelist_domains = st.whitelist_domains ∧
    ((fetchExternalLists st f).2).whitelist_domains = st.whitelist_domains ∧
    (∀ x, st.whitelist_domains.contains x = true →
      (addToWhitelist st ds).whitelist_domains.contains x = true) ∧
    (∀ x ∈ ds, (addToWhitelist st ds).whitelist_domains.contains x = true) ∧
    (∀ x, st.disposable_domains.contains x = true →
      (addToBlacklist st ds).disposable_domains.contains x = true) ∧
    (∀ x ∈ ds, (addToBlacklist st ds).disposable_domains.contains x = true) ∧
    (∀ x, st.disposable_domains.contains x = true →
      ((fetchExternalLists st f).2).disposable_domains.contains x = true) := by
  refine ⟨rfl, rfl, (fetch_preserves st f).1, ?_, ?_, ?_, ?_, ?_⟩
  · intro x hx
    exact contains_setUnion_left ds st.whitelist_domains x hx
  · intro x hx
    exact contains_setUnion_of_mem ds st.whitelist_domains x hx
  · intro x hx
    exact contains_setUnion_left ds st.disposable_domains x hx
  · intro x hx
    exact contains_setUnion_of_mem ds st.disposable_domains x hx
  · intro x hx
    exact fetch_disposable_mono st f x hx

/-- Witness for C8: concrete additivity facts at a small state. -/
theorem domain_sets_additive_witness :
    (addToWhitelist (mkState ["a.com"] ["b.com"]) ["c.com"]).disposable_domains =
      ["b.com"] ∧
    (addToWhitelist (mkState ["a.com"] ["b.com"]) ["c.com"]).whitelist_domains.contains
      "a.com" = true ∧
    (addToWhitelist (mkState ["a.com"] ["b.com"]) ["c.com"]).whitelist_domains.contains
      "c.com" = true ∧
    (addToBlacklist (mkState ["a.com"] ["b.com"]) ["c.com"]).whitelist_domains =
      ["a.com"] :=
  ⟨(domain_sets_additive (mkState ["a.com"] ["b.com"]) ["c.com"] .crash).1,
   (domain_sets_additive (mkState ["a.com"] ["b.com"]) ["c.com"] .crash).2.2.2.1
     "a.com" (by decide),
   (domain_sets_additive (mkState ["a.com"] ["b.com"]) ["c.com"] .crash).2.2.2.2.1
     "c.com" (by decide),
   (domain_sets_additive (mkState ["a.com"] ["b.com"]) ["c.com"] .crash).2.1⟩

/-! ## Claim C9 -/

/-- The fetch oracle an operation consumes, when it has one. -/
def opFetch : Op → Option FetchOutcome
  | .check _ _ _ f => some f
  | .updateIfNeeded _ f => some f
  | .forceUpdate f => some f
  | .addWl _ => none
  | .addBl _ => none
  | .clearCache => none

/-- Claim C9 as stated is false: `force_update_domains` writes
`last_update := 0` before launching the refresh, so when the refresh then
crashes, `last_update` has changed (here from 5 to 0) although no merge
completed and 0 is not the completion time of any refresh. -/
theorem last_update_counterexample :
    (applyOp { mkState [] [] with last_update := 5 }
        (Op.forceUpdate FetchOutcome.crash)).last_update = 0 ∧
    ({ mkState [] [] with last_update := 5 } : CheckerState).last_update = 5 ∧
    (forceUpdateDomains { mkState [] [] with last_update := 5 }
        FetchOutcome.crash).1 = false := by
  decide

/-- Claim C9 (amended): across every operation, `last_update` is either
unchanged, or set to the completion time of a refresh whose merge
finished (whether or not any domains were added), or — the one exception
the code adds — reset to 0 by `force_update_domains` before its fetch, so
a forced refresh that crashes leaves `last_update` at 0. -/
theorem checkEmailCompute_last_update (st : CheckerState) (email : String)
    (now : Int) (dns : DnsOutcome) (f : FetchOutcome) :
    ((checkEmailCompute st email now dns f).2).last_update =
      ((updateDomainsIfNeeded st now f).2).last_update := by
  rw [checkEmailCompute_snd]; rfl

theorem updateDomainsIfNeeded_last_update (st : CheckerState) (now : Int)
    (f : FetchOutcome) :
    ((updateDomainsIfNeeded st now f).2).last_update = st.last_update ∨
    (∃ lists t, f = FetchOutcome.ok lists t ∧
      ((updateDomainsIfNeeded st now f).2).last_update = t) := by
  unfold updateDomainsIfNeeded
  split
  · cases f with
    | ok lists t => right; exact ⟨lists, t, rfl, rfl⟩
    | crash => left; rfl
  · left; rfl

theorem last_update_writes (st : CheckerState) (op : Op) :
    (applyOp st op).last_update = st.last_update ∨
    (∃ lists t, opFetch op = some (FetchOutcome.ok lists t) ∧
      (applyOp st op).last_update = t) ∨
    (op = Op.forceUpdate FetchOutcome.crash ∧ (applyOp st op).last_update = 0) := by
  cases op with
  | check email now dns f =>
    simp only [applyOp]
    unfold checkEmail
    rcases hl : st.cache.lookup email with _ | e <;> simp only [hl]
    · rcases updateDomainsIfNeeded_last_update st now f with h | ⟨lists, t, hf, h⟩
      · left; rw [checkEmailCompute_last_update]; exact h
      · right; left
        exact ⟨lists, t, by subst hf; rfl,
          by rw [checkEmailCompute_last_update]; exact h⟩
    · split
      · left; rfl
      · rcases updateDomainsIfNeeded_last_update st now f with h | ⟨lists, t, hf, h⟩
        · left; rw [checkEmailCompute_last_update]; exact h
        · right; left
          exact ⟨lists, t, by subst hf; rfl,
            by rw [checkEmailCompute_last_update]; exact h⟩
  | updateIfNeeded now f =>
    simp only [applyOp]
    rcases updateDomainsIfNeeded_last_update st now f with h | ⟨lists, t, hf, h⟩
    · left; exact h
    · right; left; exact ⟨lists, t, by subst hf; rfl, h⟩
  | forceUpdate f =>
    cases f with
    | ok lists t => right; left; exact ⟨lists, t, rfl, rfl⟩
    | crash => right; right; exact ⟨rfl, rfl⟩
  | addWl ds => left; rfl
  | addBl ds => left; rfl
  | clearCache => left; rfl

/-! ## Claim C10 -/

/-- Invariant of reachable states: every cache entry stores the verdict
of the email it is keyed by. -/
def cacheEmailsOK (st : CheckerState) : Prop :=
  ∀ p ∈ st.cache, p.2.result.email = p.1

/-- The input an item of the bulk `results` array reports on. -/
def bulkItemSource : BulkItem → String
  | .ok r => r.email
  | .err e => e

theorem checkEmail_email (st : CheckerState) (email : String) (now : Int)
    (dns : DnsOutcome) (f : FetchOutcome) (hc : cacheEmailsOK st) :
    (checkEmail st email now dns f).1.email = email ∧
    cacheEmailsOK (checkEmail st email now dns f).2 := by
  have hcomp : (checkEmailCompute st email now dns f).1.email = email := by
    rw [checkEmailCompute_fst]
    exact computeResult_email _ _ email now dns
  have hcompSt : cacheEmailsOK (checkEmailCompute st email now dns f).2 := by
    rw [checkEmailCompute_snd]
    intro p hp
    have hp1 : p ∈ cachePut
        (dictInsert ((updateDomainsIfNeeded st now f).2).cache email
          ⟨(checkEmailCompute st email now dns f).1.to_dict, now⟩)
        now ((updateDomainsIfNeeded st now f).2).cache_ttl
        ((updateDomainsIfNeeded st now f).2).max_cache_size := hp
    have hp2 := mem_cachePut _ _ _ _ p hp1
    rcases mem_dictInsert _ _ _ p hp2 with h1 | h2
    · rw [h1]
      exact hcomp
    · rw [(update_preserves st now f).2.1] at h2
      exact hc p h2
  unfold checkEmail
  rcases hl : st.cache.lookup email with _ | e <;> simp only [hl]
  · exact ⟨hcomp, hcompSt⟩
  · split
    · have hmem : (email, e) ∈ st.cache := lookup_mem email st.cache e hl
      exact ⟨hc (email, e) hmem, hc⟩
    · exact ⟨hcomp, hcompSt⟩

theorem checkEmailsBatch_emails (emails : List String) :
    ∀ (st : CheckerState) (now : Int) (dns : String → DnsOutcome)
      (f : FetchOutcome), cacheEmailsOK st →
      (checkEmailsBatch st emails now dns f).1.map (fun r => r.email) = emails ∧
      cacheEmailsOK (checkEmailsBatch st emails now dns f).2 := by
  induction emails with
  | nil => intro st now dns f hc; exact ⟨rfl, hc⟩
  | cons e rest ih =>
    intro st now dns f hc
    have h1 := checkEmail_email st e now (dns e) f hc
    have h2 := ih (checkEmail st e now (dns e) f).2 now dns f h1.2
    unfold checkEmailsBatch
    simp only [List.map_cons]
    exact ⟨by rw [h1.1, h2.1], h2.2⟩

theorem bulkProcess_emails (emails : List String) :
    ∀ (st : CheckerState) (now : Int) (dns : String → DnsOutcome)
      (f : FetchOutcome) (val : String → Option String), cacheEmailsOK st →
      (bulkProcess st emails now dns f val).1.length = emails.length ∧
      (bulkProcess st emails now dns f val).1.map bulkItemSource =
        emails.map (fun e => (val e).getD e) ∧
      cacheEmailsOK (bulkProcess st emails now dns f val).2 := by
  induction emails with
  | nil => intro st now dns f val hc; exact ⟨rfl, rfl, hc⟩
  | cons e rest ih =>
    intro st now dns f val hc
    unfold bulkProcess
    rcases hv : val e with _ | clean
    · have h2 := ih st now dns f val hc
      simp only [List.map_cons, List.length_cons, hv]
      refine ⟨by rw [h2.1], ?_, h2.2.2⟩
      rw [h2.2.1]
      simp [bulkItemSource, hv]
    · have h1 := checkEmail_email st clean now (dns clean) f hc
      have h2 := ih (checkEmail st clean now (dns clean) f).2 now dns f val h1.2
      simp only [List.map_cons, List.length_cons, hv]
      refine ⟨by rw [h2.1], ?_, h2.2.2⟩
      rw [h2.2.1]
      have : ((checkEmail st clean now (dns clean) f).1.to_dict).email = clean := h1.1
      simp [bulkItemSource, this, hv]

/-- Claim C10: from any state whose cache entries are keyed by their own
email, the batch check returns exactly one verdict per input in input
order (the list of result emails equals the input list), and the bulk
endpoint likewise returns one entry per input in order — a verdict of the
normalized email when validation succeeds, a per-item error entry
carrying the original input when it fails. -/
theorem batch_preserves_order (st : CheckerState) (emails : List String)
    (now : Int) (dns : String → DnsOutcome) (f : FetchOutcome)
    (val : String → Option String) (hc : cacheEmailsOK st) :
    (checkEmailsBatch st emails now dns f).1.map (fun r => r.email) = emails ∧
    (checkEmailsBatch st emails now dns f).1.length = emails.length ∧
    (bulkProcess st emails now dns f val).1.length = emails.length ∧
    (bulkProcess st emails now dns f val).1.map bulkItemSource =
      emails.map (fun e => (val e).getD e) := by
  have h1 := checkEmailsBatch_emails emails st now dns f hc
  have h2 := bulkProcess_emails emails st now dns f val hc
  refine ⟨h1.1, ?_, h2.1, h2.2.1⟩
  have := congrArg List.length h1.1
  simpa using this

/-- Witness for C10: a three-element batch (one invalid item) on a fresh
state. -/
theorem batch_preserves_order_witness :
    (checkEmailsBatch (mkState [] []) ["a@b.c", "bad", "x@y.zz"] 0
        (fun _ => DnsOutcome.success) FetchOutcome.crash).1.map
      (fun r => r.email) = ["a@b.c", "bad", "x@y.zz"] ∧
    (checkEmailsBatch (mkState [] []) ["a@b.c", "bad", "x@y.zz"] 0
        (fun _ => DnsOutcome.success) FetchOutcome.crash).1.length = 3 ∧
    (bulkProcess (mkState [] []) ["a@b.c", "bad", "x@y.zz"] 0
        (fun _ => DnsOutcome.success) FetchOutcome.crash
        (fun e => if e = "bad" then none else some e)).1.length = 3 ∧
    (bulkProcess (mkState [] []) ["a@b.c", "bad", "x@y.zz"] 0
        (fun _ => DnsOutcome.success) FetchOutcome.crash
        (fun e => if e = "bad" then none else some e)).1.map bulkItemSource =
      (["a@b.c", "bad", "x@y.zz"] : List String).map
        (fun e => ((if e = "bad" then none else some e) : Option String).getD e) :=
  batch_preserves_order (mkState [] []) ["a@b.c", "bad", "x@y.zz"] 0
    (fun _ => DnsOutcome.success) .crash (fun e => if e = "bad" then none else some e)
    (by intro p hp; simp [mkState] at hp)

